import Mathlib

/-!
# Cyclops RPC format (`src/lib/cyclops/RPC_defs.h`)

A shallow embedding of the RPC Format Specification header of the Cyclops
library: the five constants, the two extraction macros, and the tables of the
format description that the header's documentation block carries.

Header bytes are natural numbers; a statement about an unsigned 8-bit value
carries the bound `b < 256`.  C's `>>` and `&` on non-negative values are
`>>>` and `&&&` on `Nat`.
-/

namespace Cyclops

/-! ## Constants and macros (`RPC_defs.h`, lines 84-91) -/

/-- `#define RPC_HEADER_SZ 1` -/
def RPC_HEADER_SZ : Nat := 1

/-- `#define RPC_CHANNEL_RSHIFT 6` -/
def RPC_CHANNEL_RSHIFT : Nat := 6

/-- `#define RPC_CHANNEL_MASK 0x02` -/
def RPC_CHANNEL_MASK : Nat := 0x02

/-- `#define RPC_COMMAND_RSHIFT 0` -/
def RPC_COMMAND_RSHIFT : Nat := 0

/-- `#define RPC_COMMAND_MASK 0x3f` -/
def RPC_COMMAND_MASK : Nat := 0x3f

/-- `#define EXTRACT_CHANNEL(header_byte)
    ((header_byte >> RPC_CHANNEL_RSHIFT) & RPC_CHANNEL_MASK)` -/
def EXTRACT_CHANNEL (header_byte : Nat) : Nat :=
  (header_byte >>> RPC_CHANNEL_RSHIFT) &&& RPC_CHANNEL_MASK

/-- `#define EXTRACT_COMMAND(header_byte)
    ((header_byte >> RPC_COMMAND_RSHIFT) & RPC_COMMAND_MASK)` -/
def EXTRACT_COMMAND (header_byte : Nat) : Nat :=
  (header_byte >>> RPC_COMMAND_RSHIFT) &&& RPC_COMMAND_MASK

/-! ## Header layouts of the format description (`RPC_defs.h`, lines 13-40) -/

/-- Bit 7 of a header byte, the `Reserved` field of both header tables:
`1` for a Single byte packet, `0` for a Multi byte packet. -/
def reservedBit (header_byte : Nat) : Nat :=
  (header_byte >>> 7) &&& 0x1

/-- Section `S-header-desc`: field `channel`, bits `[6:3]`. -/
def S_header_channel (header_byte : Nat) : Nat :=
  (header_byte >>> 3) &&& 0xF

/-- Section `S-header-desc`: field `command`, bits `[2:0]`. -/
def S_header_command (header_byte : Nat) : Nat :=
  header_byte &&& 0x7

/-- Section `M-header-desc`: field `channel`, bits `[6:5]`. -/
def M_header_channel (header_byte : Nat) : Nat :=
  (header_byte >>> 5) &&& 0x3

/-- Section `M-header-desc`: field `command`, bits `[4:0]`. -/
def M_header_command (header_byte : Nat) : Nat :=
  header_byte &&& 0x1F

/-- Section `S-cmd-desc`: the table heads its code column `command[3:0]`,
bits `[3:0]` of the header byte. -/
def S_cmd_field (header_byte : Nat) : Nat :=
  header_byte &&& 0xF

/-- The Multi header of the table in `M-header-desc`, assembled from its
fields: `Reserved` 0 in bit 7, `channel` in bits `[6:5]`, `command` in bits
`[4:0]`. -/
def M_header_encode (channel command : Nat) : Nat :=
  (channel <<< 5) ||| command

/-! ## Command tables (`RPC_defs.h`, lines 23-74) -/

/-- Section `S-cmd-desc`: the Single byte commands. -/
inductive SCommand where
  | start
  | stop
  | reset
  | swap
  | identity
  deriving DecidableEq, Repr

/-- Section `S-cmd-desc`, column `command[3:0]`. -/
def SCommand.code : SCommand → Nat
  | .start => 0b0000
  | .stop => 0b0001
  | .reset => 0b0010
  | .swap => 0b0011
  | .identity => 0b1111

/-- The rows of the table in `S-cmd-desc`, top to bottom. -/
def SCommand.all : List SCommand :=
  [.start, .stop, .reset, .swap, .identity]

/-- Section `M-cmd-desc`: the Multi byte commands. -/
inductive MCommand where
  | change_source_l
  | change_source_o
  | change_source_n
  | change_time_period
  | time_factor
  | voltage_offset
  | square_on_time
  | square_off_time
  deriving DecidableEq, Repr

/-- The rows of the table in `M-cmd-desc`, top to bottom. -/
def MCommand.all : List MCommand :=
  [.change_source_l, .change_source_o, .change_source_n, .change_time_period,
   .time_factor, .voltage_offset, .square_on_time, .square_off_time]

/-- Section `M-cmd-desc`, column `command[4:0]`. -/
def MCommand.code : MCommand → Nat
  | .change_source_l => 0b00000
  | .change_source_o => 0b00001
  | .change_source_n => 0b00010
  | .change_time_period => 0b00011
  | .time_factor => 0b00101
  | .voltage_offset => 0b00111
  | .square_on_time => 0b01000
  | .square_off_time => 0b01001

/-- Section `M-cmd-desc`, column `Size(Bytes)`: the size of the whole packet,
header included. -/
def MCommand.size : MCommand → Nat
  | .change_source_l => 2
  | .change_source_o => 2
  | .change_source_n => 3
  | .change_time_period => 5
  | .time_factor => 5
  | .voltage_offset => 3
  | .square_on_time => 5
  | .square_off_time => 5

/-- The command of the table in `M-cmd-desc` that carries a given code, when
there is one. -/
def MCommand.ofCode (code : Nat) : Option MCommand :=
  MCommand.all.find? (fun c => c.code == code)

/-- The argument types the table in `M-arg-byte-desc` uses. -/
inductive ArgType where
  | uint8
  | uint16
  | uint32
  | float
  deriving DecidableEq, Repr

/-- Width in bytes of an argument type. -/
def ArgType.width : ArgType → Nat
  | .uint8 => 1
  | .uint16 => 2
  | .uint32 => 4
  | .float => 4

/-- Section `M-arg-byte-desc`: columns `Argument[0]` and `Argument[1]`. -/
def MCommand.args : MCommand → List ArgType
  | .change_source_l => [.uint8]
  | .change_source_o => [.uint8]
  | .change_source_n => [.uint8, .uint8]
  | .change_time_period => [.uint32]
  | .time_factor => [.float]
  | .voltage_offset => [.uint16]
  | .square_on_time => [.uint32]
  | .square_off_time => [.uint32]

/-- Number of argument bytes of a command: the widths of its arguments, added
up. -/
def MCommand.argBytes (c : MCommand) : Nat :=
  (c.args.map ArgType.width).sum

/-! ## Decode engine

`RPC_defs.h` holds the format and the extraction macros only; the engine that
frames the byte stream is described by the specification (sections 3, 4.1,
4.2, 5, 7 and 9) and is modelled from there, over the tables above.
-/

/-- Modelled from the spec: the packet kind of section 3, `kind ∈ {Single,
Multi}`; the sources declare no such type. -/
inductive Kind where
  | Single
  | Multi
  deriving DecidableEq, Repr

/-- Modelled from the spec: the Header of section 3, `{kind, channel,
command}`; the sources declare no such type. -/
structure Header where
  kind : Kind
  channel : Nat
  command : Nat
  deriving DecidableEq, Repr

/-- Modelled from the spec: a decoded packet, the header fields and the
argument bytes that follow the header (section 3); the sources declare no such
type.  The argument bytes are kept as received: their byte order and the float
encoding are a configuration constant of the protocol (section 4.4). -/
structure Packet where
  header : Header
  args : List Nat
  deriving DecidableEq, Repr

/-- Modelled from the spec: the error kinds of section 7 that the assembler
raises; the sources declare no such type. -/
inductive RpcError where
  | UnknownCommand
  | StalledFrame
  deriving DecidableEq, Repr

/-- Modelled from the spec: the result of one `feed` step (section 9),
`{Incomplete, Complete(Packet), Error}`; the sources declare no such type. -/
inductive FeedResult where
  | Incomplete
  | Complete (packet : Packet)
  | Error (e : RpcError)
  deriving DecidableEq, Repr

/-- Modelled from the spec: the resumable parser object of section 9,
`{bytes-so-far, expected-length, kind}`; the sources declare no such type. -/
structure Parser where
  bytesSoFar : List Nat
  expectedLength : Nat
  kind : Kind
  deriving DecidableEq, Repr

/-- Modelled from the spec: the initial classification state (section 5), with
nothing buffered; the sources have no assembler. -/
def Parser.initial : Parser :=
  { bytesSoFar := [], expectedLength := 0, kind := Kind.Single }

/-- Modelled from the spec: the Packet Classifier of section 4.1, which the
sources do not contain.  Bit 7 set: Single, complete with that byte.  Bit 7
clear: Multi, with the total frame size that the size table gives for the 5-bit
command field; a code without a table entry has no frame length. -/
def classify (first : Nat) : Kind × Option Nat :=
  if reservedBit first = 1 then (Kind.Single, some 1)
  else (Kind.Multi, (MCommand.ofCode (M_header_command first)).map MCommand.size)

/-- Modelled from the spec: the classifier applied to a stream (section 4.1:
its input is the first unread byte of the stream); the sources do not contain
it. -/
def classifyStream : List Nat → Option (Kind × Option Nat)
  | [] => none
  | first :: _ => some (classify first)

/-- Modelled from the spec: the Header Decoder of section 4.2, a function of
the first byte and the kind, which the sources do not contain (they hold the
kind-independent macros `EXTRACT_CHANNEL` and `EXTRACT_COMMAND`). -/
def decodeHeader (kind : Kind) (byte : Nat) : Header :=
  match kind with
  | Kind.Single =>
    { kind := Kind.Single, channel := S_header_channel byte, command := S_header_command byte }
  | Kind.Multi =>
    { kind := Kind.Multi, channel := M_header_channel byte, command := M_header_command byte }

/-- Modelled from the spec: the packet decoded from a complete frame, header
byte first (sections 4.2 and 4.4); the sources do not contain a decoder. -/
def decodePacket (kind : Kind) (header_byte : Nat) (args : List Nat) : Packet :=
  { header := decodeHeader kind header_byte, args := args }

/-- Modelled from the spec: the step function `feed(byte)` of the Byte Stream
Assembler (sections 5 and 9), which the sources do not contain.  With nothing
buffered the byte is classified: a frame of length 1 completes at once, a
longer one is buffered, and a Multi code without a table entry is an
`UnknownCommand` after which classification restarts at the next byte
(section 7).  With a frame in progress the byte is appended, and the frame
completes when the expected length is reached. -/
def feed (p : Parser) (byte : Nat) : Parser × FeedResult :=
  match p.bytesSoFar with
  | [] =>
    match classify byte with
    | (_, none) => (Parser.initial, FeedResult.Error RpcError.UnknownCommand)
    | (kind, some n) =>
      if n ≤ 1 then (Parser.initial, FeedResult.Complete (decodePacket kind byte []))
      else ({ bytesSoFar := [byte], expectedLength := n, kind := kind }, FeedResult.Incomplete)
  | header_byte :: args =>
    if p.expectedLength ≤ p.bytesSoFar.length + 1 then
      (Parser.initial, FeedResult.Complete (decodePacket p.kind header_byte (args ++ [byte])))
    else
      ({ bytesSoFar := p.bytesSoFar ++ [byte], expectedLength := p.expectedLength,
         kind := p.kind }, FeedResult.Incomplete)

/-- Modelled from the spec: one delivery call (section 5), which the sources
do not contain: the bytes are fed in order, the parser state is kept for the
next call, and every result other than `Incomplete` is reported, in order.  A
`Complete` result is what is handed to the dispatcher: one dispatch. -/
def deliver (p : Parser) : List Nat → Parser × List FeedResult
  | [] => (p, [])
  | byte :: rest =>
    match feed p byte with
    | (q, FeedResult.Incomplete) => deliver q rest
    | (q, result) => ((deliver q rest).1, result :: (deliver q rest).2)

/-! ## Helper lemmas -/

set_option maxRecDepth 100000 in
/-- `EXTRACT_CHANNEL` keeps bit 7 only, and leaves it at bit position 1. -/
theorem EXTRACT_CHANNEL_of_lt (b : Nat) (h : b < 256) :
    EXTRACT_CHANNEL b = if 128 ≤ b then 2 else 0 := by
  revert b
  decide


set_option maxRecDepth 100000 in
/-- For an unsigned 8-bit value the `Reserved` bit is set exactly from 128 on. -/
theorem reservedBit_of_lt (b : Nat) (h : b < 256) :
    reservedBit b = if 128 ≤ b then 1 else 0 := by
  revert b
  decide

/-- Over the byte values `EXTRACT_CHANNEL` takes the two values 0 and 2. -/
theorem EXTRACT_CHANNEL_image :
    (Finset.range 256).image EXTRACT_CHANNEL = {0, 2} := by
  ext v
  simp only [Finset.mem_image, Finset.mem_range, Finset.mem_insert, Finset.mem_singleton]
  constructor
  · rintro ⟨b, hb, rfl⟩
    rw [EXTRACT_CHANNEL_of_lt b hb]
    split <;> simp
  · rintro (rfl | rfl)
    · exact ⟨0, by decide, by decide⟩
    · exact ⟨128, by decide, by decide⟩

/-- The 3-bit field of `S-header-desc` holds at most 7. -/
theorem S_header_command_le (b : Nat) : S_header_command b ≤ 7 := by
  unfold S_header_command
  exact Nat.and_le_right

/-- A byte that leaves the frame incomplete reports nothing. -/
theorem deliver_cons_incomplete (p q : Parser) (x : Nat) (xs : List Nat)
    (hfeed : feed p x = (q, FeedResult.Incomplete)) :
    deliver p (x :: xs) = deliver q xs := by
  rw [deliver, hfeed]

/-- A byte that completes a frame reports its packet, ahead of what the rest
of the call reports. -/
theorem deliver_cons_complete (p q : Parser) (x : Nat) (xs : List Nat) (packet : Packet)
    (hfeed : feed p x = (q, FeedResult.Complete packet)) :
    deliver p (x :: xs) =
      ((deliver q xs).1, FeedResult.Complete packet :: (deliver q xs).2) := by
  rw [deliver, hfeed]

/-- With a frame in progress and short of its expected length by more than
one byte, a byte is appended. -/
theorem feed_append (kind : Kind) (n h x : Nat) (t : List Nat)
    (hlen : (h :: t).length + 1 < n) :
    feed { bytesSoFar := h :: t, expectedLength := n, kind := kind } x =
      ({ bytesSoFar := h :: (t ++ [x]), expectedLength := n, kind := kind },
        FeedResult.Incomplete) := by
  have hnot : ¬ n ≤ (h :: t).length + 1 := by omega
  simp only [feed, if_neg hnot, List.cons_append]

/-- With a frame in progress and one byte short of its expected length, a byte
completes it. -/
theorem feed_last (kind : Kind) (n h x : Nat) (t : List Nat)
    (hlen : (h :: t).length + 1 = n) :
    feed { bytesSoFar := h :: t, expectedLength := n, kind := kind } x =
      (Parser.initial, FeedResult.Complete (decodePacket kind h (t ++ [x]))) := by
  have hle : n ≤ (h :: t).length + 1 := by omega
  simp only [feed, if_pos hle]

/-- A frame in progress that stays short of its expected length is only
buffered: nothing is reported. -/
theorem deliver_buffers (kind : Kind) (n : Nat) :
    ∀ (xs : List Nat) (h : Nat) (t : List Nat), (h :: t).length + xs.length < n →
      deliver { bytesSoFar := h :: t, expectedLength := n, kind := kind } xs =
        ({ bytesSoFar := h :: (t ++ xs), expectedLength := n, kind := kind }, []) := by
  intro xs
  induction xs with
  | nil =>
    intro h t _
    simp [deliver]
  | cons x xs ih =>
    intro h t hlen
    simp only [List.length_cons] at hlen
    have hfeed := feed_append kind n h x t (by simp only [List.length_cons]; omega)
    have hlen2 : (h :: (t ++ [x])).length + xs.length < n := by
      simp only [List.length_cons, List.length_append, List.length_nil]
      omega
    rw [deliver_cons_incomplete _ _ x xs hfeed, ih h (t ++ [x]) hlen2]
    simp

/-- A frame in progress completes with the byte that brings it to its expected
length: one packet is reported, and the parser is back in its initial state. -/
theorem deliver_completes (kind : Kind) (n : Nat) :
    ∀ (xs : List Nat) (h : Nat) (t : List Nat), xs ≠ [] →
      (h :: t).length + xs.length = n →
      deliver { bytesSoFar := h :: t, expectedLength := n, kind := kind } xs =
        (Parser.initial, [FeedResult.Complete (decodePacket kind h (t ++ xs))]) := by
  intro xs
  induction xs with
  | nil =>
    intro h t hne
    exact absurd rfl hne
  | cons x xs ih =>
    intro h t _ hlen
    simp only [List.length_cons] at hlen
    cases xs with
    | nil =>
      simp only [List.length_nil] at hlen
      have hfeed := feed_last kind n h x t (by simp only [List.length_cons]; omega)
      rw [deliver_cons_complete _ _ x [] _ hfeed]
      simp [deliver]
    | cons y ys =>
      simp only [List.length_cons] at hlen
      have hfeed := feed_append kind n h x t (by simp only [List.length_cons]; omega)
      have hlen2 : (h :: (t ++ [x])).length + (y :: ys).length = n := by
        simp only [List.length_cons, List.length_append, List.length_nil]
        omega
      rw [deliver_cons_incomplete _ _ x (y :: ys) hfeed,
        ih h (t ++ [x]) (List.cons_ne_nil y ys) hlen2]
      simp

/-- Every size of the table in `M-cmd-desc` exceeds the header. -/
theorem MCommand.one_lt_size (c : MCommand) : 1 < c.size := by
  cases c <;> decide

/-- The header byte of a Multi frame with a table command opens a frame of the
table size. -/
theorem feed_initial_multi (h : Nat) (c : MCommand) (hres : reservedBit h = 0)
    (hc : MCommand.ofCode (M_header_command h) = some c) :
    feed Parser.initial h =
      ({ bytesSoFar := [h], expectedLength := c.size, kind := Kind.Multi },
        FeedResult.Incomplete) := by
  have hcl : classify h = (Kind.Multi, some c.size) := by
    simp [classify, hres, hc]
  have hgt : ¬ c.size ≤ 1 := by
    have := MCommand.one_lt_size c
    omega
  simp only [feed, Parser.initial, hcl, if_neg hgt]

/-- A header byte with bit 7 set is a complete Single packet. -/
theorem feed_initial_single (b : Nat) (hres : reservedBit b = 1) :
    feed Parser.initial b =
      (Parser.initial, FeedResult.Complete (decodePacket Kind.Single b [])) := by
  have hcl : classify b = (Kind.Single, some 1) := by
    simp [classify, hres]
  simp only [feed, Parser.initial, hcl]
  simp

/-- A whole Multi frame of its table size, delivered in one call from the
initial state, reports its packet and nothing else. -/
theorem deliver_whole_frame (h : Nat) (args : List Nat) (c : MCommand)
    (hr : reservedBit h = 0)
    (hc : MCommand.ofCode (M_header_command h) = some c)
    (hsize : (h :: args).length = c.size) :
    deliver Parser.initial (h :: args) =
      (Parser.initial, [FeedResult.Complete (decodePacket Kind.Multi h args)]) := by
  have hfeed := feed_initial_multi h c hr hc
  have hgt := MCommand.one_lt_size c
  simp only [List.length_cons] at hsize
  have hargs : args ≠ [] := by
    intro he
    rw [he] at hsize
    simp only [List.length_nil] at hsize
    omega
  have hsum : [h].length + args.length = c.size := by
    simp only [List.length_cons, List.length_nil]
    omega
  rw [deliver_cons_incomplete _ _ h args hfeed,
    deliver_completes Kind.Multi c.size args h [] hargs hsum]
  simp

/-- A Multi frame of its table size delivered in two calls, the first short of
the whole frame: the first call reports nothing, the second the packet. -/
theorem deliver_split_frame (h : Nat) (args : List Nat) (c : MCommand) (k : Nat)
    (hr : reservedBit h = 0)
    (hc : MCommand.ofCode (M_header_command h) = some c)
    (hsize : (h :: args).length = c.size)
    (hk : k < c.size) :
    (deliver Parser.initial ((h :: args).take k)).2 = [] ∧
      deliver (deliver Parser.initial ((h :: args).take k)).1 ((h :: args).drop k) =
        (Parser.initial, [FeedResult.Complete (decodePacket Kind.Multi h args)]) := by
  have hfeed := feed_initial_multi h c hr hc
  have hwhole := deliver_whole_frame h args c hr hc hsize
  cases k with
  | zero =>
    refine ⟨by simp [deliver], ?_⟩
    simpa [deliver] using hwhole
  | succ j =>
    simp only [List.length_cons] at hsize
    have hj : j < args.length := by omega
    have htake : (h :: args).take (j + 1) = h :: args.take j := rfl
    have hdrop : (h :: args).drop (j + 1) = args.drop j := rfl
    have hshort : [h].length + (args.take j).length < c.size := by
      simp only [List.length_cons, List.length_nil, List.length_take]
      omega
    have hfirst : deliver Parser.initial (h :: args.take j) =
        ({ bytesSoFar := h :: args.take j, expectedLength := c.size, kind := Kind.Multi },
          []) := by
      rw [deliver_cons_incomplete _ _ h (args.take j) hfeed,
        deliver_buffers Kind.Multi c.size (args.take j) h [] hshort]
      simp
    have hdne : args.drop j ≠ [] := by
      intro he
      have := congrArg List.length he
      simp only [List.length_drop, List.length_nil] at this
      omega
    have hfull : (h :: args.take j).length + (args.drop j).length = c.size := by
      simp only [List.length_cons, List.length_take, List.length_drop]
      omega
    rw [htake, hdrop, hfirst]
    refine ⟨rfl, ?_⟩
    rw [deliver_completes Kind.Multi c.size (args.drop j) h (args.take j) hdne hfull,
      List.take_append_drop]

set_option maxRecDepth 100000 in
/-- The documented Multi layout round-trips: the fields of `M-header-desc`,
put back in their places, give the header byte. -/
theorem M_header_roundtrip (b : Nat) (h : b < 128) :
    M_header_encode (M_header_channel b) (M_header_command b) = b := by
  revert b
  decide

set_option maxRecDepth 100000 in
/-- The command macro and the fields it overlaps, in arithmetic: for an
unsigned 8-bit value `EXTRACT_COMMAND` is the residue modulo 64, the 5-bit
field of `M-header-desc` the residue modulo 32, and bit 5 the parity of the
quotient by 32. -/
theorem EXTRACT_COMMAND_of_lt (b : Nat) (h : b < 256) :
    EXTRACT_COMMAND b = b % 64 ∧ M_header_command b = b % 32 ∧
      (b >>> 5) &&& 1 = b / 32 % 2 := by
  revert b
  decide

set_option maxRecDepth 100000 in
/-- Masking an unsigned 8-bit value with `0xBF` clears bit 6: bits `[5:0]` and
bit 7 stay. -/
theorem and_0xBF_of_lt (b : Nat) (h : b < 256) :
    b &&& 0xBF = b % 64 + 128 * (b / 128) := by
  revert b
  decide

set_option maxRecDepth 100000 in
/-- Flipping bit 6 of an unsigned 8-bit value adds 64 when the bit is clear
and takes 64 away when it is set. -/
theorem xor_0x40_of_lt (b : Nat) (h : b < 256) :
    b ^^^ 0x40 = if b / 64 % 2 = 0 then b + 64 else b - 64 := by
  revert b
  decide

/-! ## Header decoding against the documented layouts -/

/-- C1, at the Multi header byte `0x20` (bit 7 clear, channel bits `[6:5]` =
`01`, command 0): `EXTRACT_CHANNEL` yields 0, while the 2-bit field in bits
`[6:5]`, `(b >> 5) & 0x3`, is 1. -/
theorem EXTRACT_CHANNEL_multi_0x20 :
    reservedBit 0x20 = 0 ∧ EXTRACT_CHANNEL 0x20 = 0 ∧ (0x20 >>> 5) &&& 0x3 = 1 ∧
      M_header_channel 0x20 = 1 := by
  decide

/-- C2, at the Multi header byte `0x20` (bit 7 clear, channel bits `[6:5]` =
`01`, command 0): `EXTRACT_COMMAND` yields 32, while the 5-bit field in bits
`[4:0]`, `b & 0x1F`, is 0. -/
theorem EXTRACT_COMMAND_multi_0x20 :
    reservedBit 0x20 = 0 ∧ EXTRACT_COMMAND 0x20 = 32 ∧ 0x20 &&& 0x1F = 0 ∧
      M_header_command 0x20 = 0 := by
  decide

/-- C3, at the Single header byte `0x88` (bit 7 set, channel bits `[6:3]` =
`0001`, command bits `[2:0]` = `000`): the macros yield channel 2 and command
8, while `(b >> 3) & 0xF` is 1 and `b & 0x7` is 0. -/
theorem EXTRACT_single_0x88 :
    reservedBit 0x88 = 1 ∧
      EXTRACT_CHANNEL 0x88 = 2 ∧ (0x88 >>> 3) &&& 0xF = 1 ∧ S_header_channel 0x88 = 1 ∧
      EXTRACT_COMMAND 0x88 = 8 ∧ 0x88 &&& 0x7 = 0 ∧ S_header_command 0x88 = 0 := by
  decide

/-- C4, at the Multi header byte `0x40` (bit 7 clear, channel bits `[6:5]` =
`10`, command `00000` = change_source_l): re-encoding the fields the macros
extract, `(EXTRACT_CHANNEL(b) << 5) | EXTRACT_COMMAND(b)`, gives `0x00` and not
`0x40`; re-encoding the fields of the documented layout gives `0x40` back. -/
theorem EXTRACT_roundtrip_multi_0x40 :
    reservedBit 0x40 = 0 ∧
      MCommand.ofCode (0x40 &&& 0x1F) = some MCommand.change_source_l ∧
      (EXTRACT_CHANNEL 0x40 <<< 5) ||| EXTRACT_COMMAND 0x40 = 0x00 ∧
      M_header_encode (EXTRACT_CHANNEL 0x40) (EXTRACT_COMMAND 0x40) ≠ 0x40 ∧
      M_header_encode (M_header_channel 0x40) (M_header_command 0x40) = 0x40 := by
  decide

/-! ## Command tables -/

/-- C5, as stated, fails: not every one of the five Single command codes is
the 3-bit command field `b & 0x7` of a header byte with bit 7 set (identity,
`1111`, is not). -/
theorem S_header_command_misses_a_code :
    ¬ ∀ c : SCommand, ∃ b, b < 256 ∧ reservedBit b = 1 ∧ S_header_command b = c.code := by
  intro h
  obtain ⟨b, -, -, hb⟩ := h SCommand.identity
  have := S_header_command_le b
  rw [hb] at this
  exact absurd this (by decide)

/-- C5, amended: a Single command code is the 3-bit command field `b & 0x7` of
some header byte with bit 7 set exactly when the command is not identity (so
start, stop, reset and swap are, and identity, `1111`, is not); every one of
the five codes is the 4-bit field `command[3:0]`, `b & 0xF`, and the
`EXTRACT_COMMAND` result, of some header byte with bit 7 set. -/
theorem S_command_codes_in_field (c : SCommand) :
    ((∃ b, b < 256 ∧ reservedBit b = 1 ∧ S_header_command b = c.code) ↔
        c ≠ SCommand.identity) ∧
      ∃ b, b < 256 ∧ reservedBit b = 1 ∧ S_cmd_field b = c.code ∧
        EXTRACT_COMMAND b = c.code := by
  constructor
  · constructor
    · rintro ⟨b, -, -, hb⟩ rfl
      have := S_header_command_le b
      rw [hb] at this
      exact absurd this (by decide)
    · intro hc
      cases c
      · exact ⟨0x80, by decide⟩
      · exact ⟨0x81, by decide⟩
      · exact ⟨0x82, by decide⟩
      · exact ⟨0x83, by decide⟩
      · exact absurd rfl hc
  · cases c
    · exact ⟨0x80, by decide⟩
    · exact ⟨0x81, by decide⟩
    · exact ⟨0x82, by decide⟩
    · exact ⟨0x83, by decide⟩
    · exact ⟨0x8F, by decide⟩

/-- C6: the sizes of the eight Multi commands are 2, 2, 3, 5, 5, 3, 5, 5 in
table order, and for each command the size is `RPC_HEADER_SZ` plus the summed
byte widths of its arguments, so that the argument bytes of a frame number
exactly the table size minus `RPC_HEADER_SZ`. -/
theorem M_cmd_size_eq_header_plus_args :
    MCommand.all.map MCommand.size = [2, 2, 3, 5, 5, 3, 5, 5] ∧
      ∀ c : MCommand, c.size = RPC_HEADER_SZ + c.argBytes ∧
        c.argBytes = c.size - RPC_HEADER_SZ := by
  refine ⟨by decide, fun c => ?_⟩
  cases c <;> decide

/-! ## The channel macro -/

/-- C7: `RPC_CHANNEL_MASK` has exactly one bit set, `EXTRACT_CHANNEL` takes
fewer than four distinct values over the 256 byte values, and two Multi header
bytes with different channel fields in bits `[6:5]` have the same
`EXTRACT_CHANNEL` result. -/
theorem EXTRACT_CHANNEL_loses_multi_channel :
    (∃! k, RPC_CHANNEL_MASK.testBit k = true) ∧
      ((Finset.range 256).image EXTRACT_CHANNEL).card < 4 ∧
      ∃ a b, a < 256 ∧ b < 256 ∧ reservedBit a = 0 ∧ reservedBit b = 0 ∧
        M_header_channel a ≠ M_header_channel b ∧
        EXTRACT_CHANNEL a = EXTRACT_CHANNEL b := by
  refine ⟨⟨1, by decide, ?_⟩, ?_, ⟨0x00, 0x20, by decide⟩⟩
  · intro k hk
    have h2 : RPC_CHANNEL_MASK = 2 ^ 1 := by decide
    rw [h2, Nat.testBit_two_pow] at hk
    exact (of_decide_eq_true hk).symm
  · rw [EXTRACT_CHANNEL_image]
    decide

/-- C10: for every unsigned 8-bit value `b`, `EXTRACT_CHANNEL b` is 2 when
`b >= 128` and 0 when `b < 128`; so it is 0 for every Multi header byte and 2
for every Single header byte, whatever the channel bits are. -/
theorem EXTRACT_CHANNEL_depends_on_bit7 (b : Nat) (hb : b < 256) :
    (128 ≤ b → EXTRACT_CHANNEL b = 2) ∧ (b < 128 → EXTRACT_CHANNEL b = 0) ∧
      (reservedBit b = 0 → EXTRACT_CHANNEL b = 0) ∧
      (reservedBit b = 1 → EXTRACT_CHANNEL b = 2) := by
  have h := EXTRACT_CHANNEL_of_lt b hb
  have hr := reservedBit_of_lt b hb
  refine ⟨fun h1 => ?_, fun h1 => ?_, fun h1 => ?_, fun h1 => ?_⟩
  · rw [h, if_pos h1]
  · rw [h, if_neg (by omega)]
  · rw [h]
    rw [hr] at h1
    split at h1
    · exact absurd h1 (by decide)
    · rename_i h2
      rw [if_neg h2]
  · rw [h]
    rw [hr] at h1
    split at h1
    · rename_i h2
      rw [if_pos h2]
    · exact absurd h1 (by decide)

/-- C10 at the Single header byte `0xC8` and hence at a concrete input. -/
theorem EXTRACT_CHANNEL_depends_on_bit7_witness :
    (0xC8 < 256) ∧ EXTRACT_CHANNEL 0xC8 = 2 :=
  ⟨by decide, (EXTRACT_CHANNEL_depends_on_bit7 0xC8 (by decide)).1 (by decide)⟩

/-! ## Classification and framing -/

/-- C8: the kind of a packet is decided by bit 7 of its first byte alone.  With
bit 7 set, whatever bytes follow, the packet is classified Single with frame
length 1, and the engine completes it with that byte and handles the following
bytes as a new stream.  With bit 7 clear the packet is classified Multi, with
the frame length that the size table gives for its 5-bit command field, and
the engine waits for a frame of that length. -/
theorem classify_by_bit7 (first : Nat) (following : List Nat) (hb : first < 256) :
    (128 ≤ first →
      classifyStream (first :: following) = some (Kind.Single, some 1) ∧
      deliver Parser.initial (first :: following) =
        ((deliver Parser.initial following).1,
          FeedResult.Complete (decodePacket Kind.Single first []) ::
            (deliver Parser.initial following).2)) ∧
    (first < 128 →
      classifyStream (first :: following) =
        some (Kind.Multi, (MCommand.ofCode (first &&& 0x1F)).map MCommand.size) ∧
      ∀ c, MCommand.ofCode (first &&& 0x1F) = some c →
        feed Parser.initial first =
          ({ bytesSoFar := [first], expectedLength := c.size, kind := Kind.Multi },
            FeedResult.Incomplete)) := by
  have hr := reservedBit_of_lt first hb
  constructor
  · intro h1
    rw [if_pos h1] at hr
    refine ⟨by simp [classifyStream, classify, hr], ?_⟩
    exact deliver_cons_complete _ _ first following _ (feed_initial_single first hr)
  · intro h1
    rw [if_neg (by omega)] at hr
    refine ⟨by simp [classifyStream, classify, hr, M_header_command], ?_⟩
    intro c hc
    exact feed_initial_multi first c hr hc

/-- C8 at the Single byte `0x8F` followed by `[0x23, 1]`, and at the Multi
header byte `0x23` (change_time_period, size 5). -/
theorem classify_by_bit7_witness :
    classifyStream [0x8F, 0x23, 1] = some (Kind.Single, some 1) ∧
      classifyStream [0x23, 1] = some (Kind.Multi, some 5) :=
  ⟨((classify_by_bit7 0x8F [0x23, 1] (by decide)).1 (by decide)).1,
    ((classify_by_bit7 0x23 [1] (by decide)).2 (by decide)).1⟩

/-- C9: a Multi frame of its table size, header byte `h` with bit 7 clear and
a table command `c`, is delivered in two calls, the first with its first `k`
bytes.  When `k` is less than the frame size (the final byte comes with the
second call) the first call reports nothing and the second reports exactly one
completed packet.  For every `k` the two calls together report exactly one
completed packet and leave the parser in its initial state; that packet is the
one reported when the whole frame is delivered in one call, and its command is
the code of `c`. -/
theorem multi_frame_split_dispatch (h : Nat) (args : List Nat) (c : MCommand) (k : Nat)
    (hres : h < 128)
    (hc : MCommand.ofCode (M_header_command h) = some c)
    (hsize : (h :: args).length = c.size) :
    (k < c.size →
      (deliver Parser.initial ((h :: args).take k)).2 = [] ∧
      deliver (deliver Parser.initial ((h :: args).take k)).1 ((h :: args).drop k) =
        (Parser.initial, [FeedResult.Complete (decodePacket Kind.Multi h args)])) ∧
      (deliver (deliver Parser.initial ((h :: args).take k)).1 ((h :: args).drop k)).1 =
        Parser.initial ∧
      (deliver Parser.initial ((h :: args).take k)).2 ++
          (deliver (deliver Parser.initial ((h :: args).take k)).1 ((h :: args).drop k)).2 =
        [FeedResult.Complete (decodePacket Kind.Multi h args)] ∧
      deliver Parser.initial (h :: args) =
        (Parser.initial, [FeedResult.Complete (decodePacket Kind.Multi h args)]) ∧
      (decodePacket Kind.Multi h args).header.command = c.code := by
  have hr : reservedBit h = 0 := by
    rw [reservedBit_of_lt h (by omega), if_neg (by omega)]
  have hwhole := deliver_whole_frame h args c hr hc hsize
  have hcode : (decodePacket Kind.Multi h args).header.command = c.code := by
    have hp := List.find?_some hc
    simp only [decodePacket, decodeHeader]
    exact (beq_iff_eq.mp hp).symm
  by_cases hk : k < c.size
  · obtain ⟨h1, h2⟩ := deliver_split_frame h args c k hr hc hsize hk
    refine ⟨fun _ => ⟨h1, h2⟩, ?_, ?_, hwhole, hcode⟩
    · rw [h2]
    · rw [h1, h2]
      rfl
  · have hlen : (h :: args).length ≤ k := by omega
    rw [List.take_of_length_le hlen, List.drop_of_length_le hlen, hwhole]
    exact ⟨fun hk2 => absurd hk2 hk, rfl, rfl, rfl, hcode⟩

/-- C9 at the change_time_period frame `23 01 02 03 04` for channel 1, split
after its third byte. -/
theorem multi_frame_split_dispatch_witness :
    (deliver Parser.initial [0x23, 1, 2]).2 = [] ∧
      deliver (deliver Parser.initial [0x23, 1, 2]).1 [3, 4] =
        (Parser.initial, [FeedResult.Complete (decodePacket Kind.Multi 0x23 [1, 2, 3, 4])]) :=
  (multi_frame_split_dispatch 0x23 [1, 2, 3, 4] MCommand.change_time_period 3
    (by decide) (by decide) (by decide)).1 (by decide)

/-! ## The command macro and the decoded pair -/

/-- C11: for every unsigned 8-bit value `b`, `EXTRACT_COMMAND b` is `b mod 64`
(bits `[5:0]`); it equals the 5-bit field `b & 0x1F` plus 32 times bit 5 of
`b`, and it agrees with `b & 0x1F` if and only if bit 5 of `b` is clear.  This
holds for every byte value, the Multi header bytes (bit 7 clear) among
them. -/
theorem EXTRACT_COMMAND_mod_64 (b : Nat) (hb : b < 256) :
    EXTRACT_COMMAND b = b % 64 ∧
      EXTRACT_COMMAND b = (b &&& 0x1F) + 32 * ((b >>> 5) &&& 1) ∧
      (EXTRACT_COMMAND b = b &&& 0x1F ↔ (b >>> 5) &&& 1 = 0) ∧
      M_header_command b = b &&& 0x1F := by
  obtain ⟨h1, h2, h3⟩ := EXTRACT_COMMAND_of_lt b hb
  have h4 : b &&& 0x1F = b % 32 := h2
  rw [h1, h3, h4]
  refine ⟨rfl, by omega, by omega, h2⟩

/-- C11 at the Multi header byte `0x23` (channel bits `01`, command `00011`):
the macro gives 35, the 5-bit field 3. -/
theorem EXTRACT_COMMAND_mod_64_witness :
    0x23 < 256 ∧ EXTRACT_COMMAND 0x23 = 0x23 % 64 ∧
      EXTRACT_COMMAND 0x23 = (0x23 &&& 0x1F) + 32 * ((0x23 >>> 5) &&& 1) :=
  ⟨by decide, (EXTRACT_COMMAND_mod_64 0x23 (by decide)).1,
    (EXTRACT_COMMAND_mod_64 0x23 (by decide)).2.1⟩

/-- C12: for unsigned 8-bit values `a` and `b`, the pairs
`(EXTRACT_CHANNEL a, EXTRACT_COMMAND a)` and
`(EXTRACT_CHANNEL b, EXTRACT_COMMAND b)` are equal if and only if `a` and `b`
agree on every bit other than bit 6, `a & 0xBF = b & 0xBF`.  Flipping bit 6 of
`a` gives another byte value with the same pair, so decoding is not
injective. -/
theorem EXTRACT_pair_eq_iff (a b : Nat) (ha : a < 256) (hb : b < 256) :
    ((EXTRACT_CHANNEL a, EXTRACT_COMMAND a) = (EXTRACT_CHANNEL b, EXTRACT_COMMAND b) ↔
        a &&& 0xBF = b &&& 0xBF) ∧
      (a ^^^ 0x40 < 256 ∧ a ^^^ 0x40 ≠ a ∧
        (EXTRACT_CHANNEL (a ^^^ 0x40), EXTRACT_COMMAND (a ^^^ 0x40)) =
          (EXTRACT_CHANNEL a, EXTRACT_COMMAND a)) := by
  have hx := xor_0x40_of_lt a ha
  have hxlt : a ^^^ 0x40 < 256 := by
    rw [hx]
    split <;> omega
  have hxne : a ^^^ 0x40 ≠ a := by
    rw [hx]
    split <;> omega
  have key : ∀ x y : Nat, x < 256 → y < 256 →
      ((EXTRACT_CHANNEL x, EXTRACT_COMMAND x) = (EXTRACT_CHANNEL y, EXTRACT_COMMAND y) ↔
        x % 64 + 128 * (x / 128) = y % 64 + 128 * (y / 128)) := by
    intro x y hx1 hy1
    rw [Prod.mk.injEq, EXTRACT_CHANNEL_of_lt x hx1, EXTRACT_CHANNEL_of_lt y hy1,
      (EXTRACT_COMMAND_of_lt x hx1).1, (EXTRACT_COMMAND_of_lt y hy1).1]
    split <;> split <;> omega
  refine ⟨?_, hxlt, hxne, ?_⟩
  · rw [and_0xBF_of_lt a ha, and_0xBF_of_lt b hb]
    exact key a b ha hb
  · rw [key _ a hxlt ha, hx]
    split <;> omega

/-- C12 at the Multi header bytes `0x23` and `0x63`, which differ in bit 6
only. -/
theorem EXTRACT_pair_eq_iff_witness :
    0x23 < 256 ∧ 0x63 < 256 ∧
      (EXTRACT_CHANNEL 0x23, EXTRACT_COMMAND 0x23) =
        (EXTRACT_CHANNEL 0x63, EXTRACT_COMMAND 0x63) :=
  ⟨by decide, by decide,
    (EXTRACT_pair_eq_iff 0x23 0x63 (by decide) (by decide)).1.mpr (by decide)⟩

end Cyclops
